import Mathlib

/-!
Verification of the connection core of `lib/connection.py` (SmartHome.py).

The Python source is shallowly embedded: bytes are `Nat`s, `bytearray`s and
`bytes` objects are `List Nat`, and each method of interest becomes a pure
Lean function over an explicit state record.  Fallible operations return an
extra `Bool` flag (`true` = an exception escaped the modelled code) or an
`Option`.  Stdlib behaviour that the source relies on (Python truthiness,
`collections.deque`, `dict` iteration, `select.epoll`) is embedded with its
documented semantics and noted at each definition.
-/

/-- The `terminator` attribute of `Connection`: either a Python `int` or a
Python `bytes` value.  `Connection.__init__` stores `b"\r\n"`; `_in` stores
the int `0` after a fixed-length extraction.  Python truthiness: `tint 0`
and `tbytes []` are falsy, everything else truthy. -/
inductive Terminator where
  | tint (n : Nat)
  | tbytes (d : List Nat)
deriving DecidableEq, Repr

/-- The slice of `Connection` state that `_in` (lines 194-226) touches:
the inbound accumulator `inbuffer`, the current `terminator`, and the log
of frames passed to `found_terminator`, in call order. -/
structure FrameState where
  inbuffer : List Nat
  terminator : Terminator
  frames : List (List Nat)
deriving DecidableEq, Repr

/-- Index of the first occurrence of `d` as a contiguous subsequence of `l`:
Python `bytearray.find` (and `d in l` is `(findSub d l).isSome`).  Python
`find` returns `0` for the empty pattern, matching the `[]` case here. -/
def findSub (d : List Nat) : List Nat → Option Nat
  | [] => if d.isEmpty then some 0 else none
  | a :: t => if d.isPrefixOf (a :: t) then some 0 else (findSub d t).map (· + 1)

/-- The `while True` extraction loop of `Connection._in` (lines 207-226).
One fuel unit per iteration; `conn_in` always supplies enough fuel, since a
delimiter extraction strictly shrinks `inbuffer` and an integer extraction
sets the terminator to the falsy `0`, which stops the next iteration.
Branch order follows the source: `if not terminator: break` first (covering
the int `0` and `b""`), then the `isinstance(terminator, int)` branch, then
the delimiter branch. -/
def extractLoop : Nat → FrameState → FrameState
  | 0, st => st
  | fuel + 1, st =>
    match st.terminator with
    | .tint n =>
      if n = 0 then st
      else if st.inbuffer.length < n then st
      else extractLoop fuel ⟨st.inbuffer.drop n, .tint 0, st.frames ++ [st.inbuffer.take n]⟩
    | .tbytes d =>
      if d = [] then st
      else
        match findSub d st.inbuffer with
        | none => st
        | some i =>
          extractLoop fuel
            ⟨st.inbuffer.drop (i + d.length), .tbytes d, st.frames ++ [st.inbuffer.take i]⟩

/-- Embeds `Connection._in` on a successful, non-empty receive of `data`: append
`data` to `inbuffer` and run the extraction loop (lines 205-226).  The
`recv` call itself is abstracted; the `data == b''` peer-close path and the
receive-error path call `close()` instead and never reach this code. -/
def conn_in (st : FrameState) (data : List Nat) : FrameState :=
  extractLoop (st.inbuffer.length + data.length + 1)
    ⟨st.inbuffer ++ data, st.terminator, st.frames⟩

/-- A sequence of receive calls: the bytes of `chunks` are fed to
`Connection._in` one fragment at a time. -/
def deliverAll (st : FrameState) (chunks : List (List Nat)) : FrameState :=
  chunks.foldl conn_in st

/-- If `d` occurs in `l` at offset `i`, then `findSub` finds an occurrence at
`i` or earlier: `findSub` returns the first occurrence. -/
theorem findSub_le_of_occurrence (d : List Nat) :
    ∀ (l : List Nat) (i : Nat), d <+: l.drop i → ∃ j, j ≤ i ∧ findSub d l = some j := by
  intro l
  induction l with
  | nil =>
    intro i h
    rw [List.drop_nil] at h
    have hd : d = [] := List.prefix_nil.mp h
    exact ⟨0, Nat.zero_le i, by simp [findSub, hd]⟩
  | cons a t ih =>
    intro i h
    match i with
    | 0 =>
      refine ⟨0, Nat.le_refl 0, ?_⟩
      simp only [findSub]
      rw [if_pos (List.isPrefixOf_iff_prefix.mpr (by simpa using h))]
    | i' + 1 =>
      obtain ⟨j, hj, hfind⟩ := ih i' (by simpa using h)
      by_cases hpre : d.isPrefixOf (a :: t)
      · exact ⟨0, Nat.zero_le _, by simp [findSub, hpre]⟩
      · exact ⟨j + 1, Nat.succ_le_succ hj, by simp [findSub, hpre, hfind]⟩

/-- A successful `findSub` really is an occurrence: `d` is a prefix of
`l.drop i`, and (for non-empty `d`) the occurrence fits inside `l`. -/
theorem findSub_some_occurrence (d : List Nat) (hd : d ≠ []) :
    ∀ (l : List Nat) (i : Nat), findSub d l = some i →
      d <+: l.drop i ∧ i + d.length ≤ l.length := by
  intro l
  induction l with
  | nil =>
    intro i h
    simp [findSub, hd] at h
  | cons a t ih =>
    intro i h
    by_cases hpre : d.isPrefixOf (a :: t)
    · simp only [findSub, if_pos hpre] at h
      obtain rfl : (0 : Nat) = i := Option.some.inj h
      have hp : d <+: a :: t := List.isPrefixOf_iff_prefix.mp hpre
      exact ⟨by simpa using hp, by simpa using hp.length_le⟩
    · simp only [findSub, if_neg hpre, Option.map_eq_some'] at h
      obtain ⟨j, hj, rfl⟩ := h
      obtain ⟨hocc, hlen⟩ := ih j hj
      refine ⟨by simpa using hocc, ?_⟩
      simp only [List.length_cons]
      omega

/-- Searching the empty buffer fails for a non-empty pattern. -/
theorem findSub_nil (d : List Nat) (hd : d ≠ []) : findSub d [] = none := by
  simp [findSub, hd]

/-- Dropping respects list prefixes. -/
theorem prefix_drop_mono {p q : List Nat} (i : Nat) (h : p <+: q) :
    p.drop i <+: q.drop i := by
  obtain ⟨t, rfl⟩ := h
  rw [List.drop_append_eq_append_drop]
  exact ⟨_, rfl⟩

/-- Key fact behind delimiter framing under fragmentation: if the first
occurrence of `d` in `b ++ d` is exactly at offset `b.length`, then no
proper prefix of `b ++ d` contains `d` at all. -/
theorem findSub_none_of_boundary {b d p q : List Nat} (hd : d ≠ [])
    (hfirst : findSub d (b ++ d) = some b.length)
    (hpq : p ++ q = b ++ d) (hq : q ≠ []) : findSub d p = none := by
  cases hfind : findSub d p with
  | none => rfl
  | some i =>
    exfalso
    obtain ⟨hocc, hilen⟩ := findSub_some_occurrence d hd p i hfind
    have hocc' : d <+: (b ++ d).drop i := by
      refine hocc.trans (prefix_drop_mono i ⟨q, hpq⟩)
    obtain ⟨j, hji, hj⟩ := findSub_le_of_occurrence d (b ++ d) i hocc'
    rw [hfirst] at hj
    obtain rfl : b.length = j := Option.some.inj hj
    have hplen : p.length + q.length = b.length + d.length := by
      have := congrArg List.length hpq
      simpa using this
    have hq1 : 1 ≤ q.length := by
      cases q with
      | nil => exact absurd rfl hq
      | cons _ _ => exact Nat.succ_le_succ (Nat.zero_le _)
    omega

/-- The extraction loop is a no-op when the delimiter does not occur in the
buffer (the `break` in the `else` branch of `_in`). -/
theorem extractLoop_tbytes_none (fuel : Nat) (st : FrameState) (d : List Nat)
    (hd : d ≠ []) (ht : st.terminator = .tbytes d)
    (hfind : findSub d st.inbuffer = none) : extractLoop fuel st = st := by
  cases fuel with
  | zero => rfl
  | succ n => simp [extractLoop, ht, hd, hfind]

/-- The receive step just appends when the delimiter does not occur in the widened
buffer. -/
theorem conn_in_tbytes_none (buf data : List Nat) (f : List (List Nat)) (d : List Nat)
    (hd : d ≠ []) (hfind : findSub d (buf ++ data) = none) :
    conn_in ⟨buf, .tbytes d, f⟩ data = ⟨buf ++ data, .tbytes d, f⟩ := by
  unfold conn_in
  exact extractLoop_tbytes_none _ _ d hd rfl hfind

/-- One delimiter extraction followed by a failing search: `_in`'s loop
emits the bytes before the first occurrence and removes frame + delimiter
from the head of the buffer. -/
theorem extractLoop_tbytes_once (fuel : Nat) (buf : List Nat) (f : List (List Nat))
    (d : List Nat) (i : Nat) (hd : d ≠ []) (hfind : findSub d buf = some i)
    (hrest : findSub d (buf.drop (i + d.length)) = none) :
    extractLoop (fuel + 1) ⟨buf, .tbytes d, f⟩ =
      ⟨buf.drop (i + d.length), .tbytes d, f ++ [buf.take i]⟩ := by
  simp only [extractLoop, hd, hfind, if_neg (by simpa using hd)]
  exact extractLoop_tbytes_none _ _ d hd rfl hrest

/-- A non-empty list of non-empty chunks flattens to a non-empty sequence. -/
theorem flatten_ne_nil (chunks : List (List Nat)) (h : chunks ≠ [])
    (hne : ∀ c ∈ chunks, c ≠ []) : chunks.flatten ≠ [] := by
  cases chunks with
  | nil => exact absurd rfl h
  | cons c rest =>
    have hc : c ≠ [] := hne c (List.mem_cons_self c rest)
    cases c with
    | nil => exact absurd rfl hc
    | cons x xs => simp

/-- Main induction for delimiter framing: starting from a buffer `p` that,
together with the bytes still to arrive, forms `b ++ d` whose first `d`
occurrence is at offset `b.length`, delivering the remaining non-empty
fragments produces exactly the frame `b` and empties the buffer. -/
theorem deliverAll_tbytes_aux (b d : List Nat) (hd : d ≠ [])
    (hfirst : findSub d (b ++ d) = some b.length) :
    ∀ (chunks : List (List Nat)) (p : List Nat),
      (∀ c ∈ chunks, c ≠ []) → p ++ chunks.flatten = b ++ d → chunks.flatten ≠ [] →
      deliverAll ⟨p, .tbytes d, []⟩ chunks = ⟨[], .tbytes d, [b]⟩ := by
  intro chunks
  induction chunks with
  | nil =>
    intro p _ _ hjoin
    exact absurd rfl hjoin
  | cons c rest ih =>
    intro p hne hpj _
    have hc : c ≠ [] := hne c (List.mem_cons_self c rest)
    show deliverAll (conn_in ⟨p, .tbytes d, []⟩ c) rest = _
    by_cases hrest : rest = []
    · subst hrest
      have hpc : p ++ c = b ++ d := by simpa using hpj
      have hdropall : (b ++ d).drop (b.length + d.length) = [] := by
        have hlen : (b ++ d).length = b.length + d.length := by simp
        rw [← hlen, List.drop_length]
      have hstep : conn_in ⟨p, .tbytes d, []⟩ c = ⟨[], .tbytes d, [b]⟩ := by
        unfold conn_in
        simp only
        rw [hpc]
        rw [extractLoop_tbytes_once (p.length + c.length) (b ++ d) [] d b.length hd
          hfirst (by rw [hdropall]; exact findSub_nil d hd)]
        rw [hdropall, List.take_left b d]
        simp
      rw [hstep]
      rfl
    · have hjoin_rest : rest.flatten ≠ [] :=
        flatten_ne_nil rest hrest (fun x hx => hne x (List.mem_cons_of_mem c hx))
      have hassoc : (p ++ c) ++ rest.flatten = b ++ d := by
        rw [List.append_assoc]
        simpa using hpj
      have hstep : conn_in ⟨p, .tbytes d, []⟩ c = ⟨p ++ c, .tbytes d, []⟩ :=
        conn_in_tbytes_none p c [] d hd
          (findSub_none_of_boundary hd hfirst hassoc hjoin_rest)
      rw [hstep]
      exact ih (p ++ c) (fun x hx => hne x (List.mem_cons_of_mem c hx)) hassoc hjoin_rest

/-- C1, counterexample: the claim quantifies over every byte sequence `b`
not containing the delimiter `D`.  For `b = [0]` and `D = [0, 0]` (so `D`
does not occur in `b`), delivering `b ++ D` in a single receive makes the
first occurrence of `D` start at offset `0`, spanning the boundary between
`b` and `D`; `_in` therefore emits the empty frame, not `b`, so the claimed
single `found_terminator(b)` invocation does not happen. -/
theorem C1_counterexample :
    (findSub [0, 0] [0]).isSome = false ∧ ([0, 0] : List Nat) ≠ [] ∧
      (deliverAll ⟨[], .tbytes [0, 0], []⟩ [[0] ++ [0, 0]]).frames = [[]] ∧
      (deliverAll ⟨[], .tbytes [0, 0], []⟩ [[0] ++ [0, 0]]).frames ≠ [[0]] := by
  decide

/-- C1, amended: delimiter framing round-trips provided the first occurrence
of the delimiter `d` in `b ++ d` is exactly at offset `b.length` (this
strengthens "d does not occur in b" by also excluding occurrences spanning
the boundary).  Then delivering `b ++ d` to `_in`, split into non-empty
fragments at arbitrary points, yields exactly one `found_terminator(b)`
call, and frame plus delimiter are removed, leaving the buffer empty. -/
theorem C1_delimiter_roundtrip (b d : List Nat) (chunks : List (List Nat))
    (hd : d ≠ []) (hfirst : findSub d (b ++ d) = some b.length)
    (hne : ∀ c ∈ chunks, c ≠ []) (hjoin : chunks.flatten = b ++ d) :
    deliverAll ⟨[], .tbytes d, []⟩ chunks = ⟨[], .tbytes d, [b]⟩ := by
  refine deliverAll_tbytes_aux b d hd hfirst chunks [] hne (by simpa using hjoin) ?_
  rw [hjoin]
  intro hnil
  exact hd (List.append_eq_nil.mp hnil).2

/-- C1, witness: `b = [1, 2]`, `d = [13, 10]` (`b"\r\n"`), fragmented as
`[1]`, `[2, 13]`, `[10]`. -/
theorem C1_roundtrip_witness :
    deliverAll ⟨[], .tbytes [13, 10], []⟩ [[1], [2, 13], [10]] =
      ⟨[], .tbytes [13, 10], [[1, 2]]⟩ :=
  C1_delimiter_roundtrip [1, 2] [13, 10] [[1], [2, 13], [10]]
    (by decide) (by decide) (by decide) (by decide)

/-- Dropping at most the length of the left part of an append drops only
from the left part. -/
theorem drop_append_left_of_le (l₁ l₂ : List Nat) (n : Nat) (h : n ≤ l₁.length) :
    (l₁ ++ l₂).drop n = l₁.drop n ++ l₂ := by
  rw [List.drop_append_eq_append_drop, Nat.sub_eq_zero_of_le h, List.drop_zero]

/-- Taking at most the length of the left part of an append takes only
from the left part. -/
theorem take_append_left_of_le (l₁ l₂ : List Nat) (n : Nat) (h : n ≤ l₁.length) :
    (l₁ ++ l₂).take n = l₁.take n := by
  rw [List.take_append_eq_append_take, Nat.sub_eq_zero_of_le h, List.take_zero,
    List.append_nil]

/-- After `_in` stores the int `0` in `terminator`, the extraction loop
breaks immediately: Python `not 0` is true, so the `if not terminator`
branch fires ("just collect"), and no empty frames are emitted. -/
theorem extractLoop_tint_zero (fuel : Nat) (st : FrameState)
    (ht : st.terminator = .tint 0) : extractLoop fuel st = st := by
  cases fuel with
  | zero => rfl
  | succ n => simp [extractLoop, ht]

/-- With terminator `0`, every receive only appends to `inbuffer`. -/
theorem deliverAll_tint_zero (chunks : List (List Nat)) :
    ∀ (buf : List Nat) (f : List (List Nat)),
      deliverAll ⟨buf, .tint 0, f⟩ chunks = ⟨buf ++ chunks.flatten, .tint 0, f⟩ := by
  induction chunks with
  | nil => intro buf f; simp [deliverAll]
  | cons c rest ih =>
    intro buf f
    show deliverAll (conn_in ⟨buf, .tint 0, f⟩ c) rest = _
    have hstep : conn_in ⟨buf, .tint 0, f⟩ c = ⟨buf ++ c, .tint 0, f⟩ := by
      unfold conn_in
      exact extractLoop_tint_zero _ _ rfl
    rw [hstep, ih]
    simp

/-- A receive that still leaves fewer than `n` buffered bytes extracts
nothing under an integer terminator `n ≥ 1`. -/
theorem conn_in_tint_small (buf data : List Nat) (f : List (List Nat)) (n : Nat)
    (hn : n ≠ 0) (hlt : (buf ++ data).length < n) :
    conn_in ⟨buf, .tint n, f⟩ data = ⟨buf ++ data, .tint n, f⟩ := by
  unfold conn_in
  simp only [List.length_append] at hlt
  simp [extractLoop, hn, hlt]

/-- A receive that reaches `n` buffered bytes extracts the first `n` bytes
once, stores the int `0` in `terminator`, and stops. -/
theorem conn_in_tint_extract (buf data : List Nat) (f : List (List Nat)) (n : Nat)
    (hn : n ≠ 0) (hge : n ≤ (buf ++ data).length) :
    conn_in ⟨buf, .tint n, f⟩ data =
      ⟨(buf ++ data).drop n, .tint 0, f ++ [(buf ++ data).take n]⟩ := by
  unfold conn_in
  simp only [extractLoop, hn, if_false, Nat.not_lt.mpr hge, if_neg (Nat.not_lt.mpr hge)]
  exact extractLoop_tint_zero _ _ rfl

/-- Main induction for fixed-length framing: if fewer than `n` bytes are
buffered and the remaining fragments carry at least the missing bytes, the
first `n` bytes of the stream come out as one frame and everything after
them stays buffered under terminator `0`. -/
theorem deliverAll_tint_aux (n : Nat) :
    ∀ (chunks : List (List Nat)) (p : List Nat),
      p.length < n → n ≤ p.length + chunks.flatten.length →
      deliverAll ⟨p, .tint n, []⟩ chunks =
        ⟨(p ++ chunks.flatten).drop n, .tint 0, [(p ++ chunks.flatten).take n]⟩ := by
  intro chunks
  induction chunks with
  | nil =>
    intro p hlt hge
    simp only [List.flatten_nil, List.length_nil, Nat.add_zero] at hge
    omega
  | cons c rest ih =>
    intro p hlt hge
    have hn : n ≠ 0 := by omega
    show deliverAll (conn_in ⟨p, .tint n, []⟩ c) rest = _
    have hflat : (c :: rest).flatten = c ++ rest.flatten := by simp
    by_cases hcase : (p ++ c).length < n
    · have hstep := conn_in_tint_small p c [] n hn hcase
      rw [hstep]
      have hge' : n ≤ (p ++ c).length + rest.flatten.length := by
        simp only [List.length_append] at hcase ⊢
        simp only [hflat, List.length_append] at hge
        omega
      rw [ih (p ++ c) hcase hge', hflat, List.append_assoc]
    · have hge2 : n ≤ (p ++ c).length := by omega
      have hstep := conn_in_tint_extract p c [] n hn hge2
      rw [hstep, deliverAll_tint_zero]
      have hdrop : (p ++ c).drop n ++ rest.flatten = (p ++ (c :: rest).flatten).drop n := by
        rw [hflat, ← List.append_assoc, drop_append_left_of_le (p ++ c) rest.flatten n hge2]
      have htake : (p ++ c).take n = (p ++ (c :: rest).flatten).take n := by
        rw [hflat, ← List.append_assoc, take_append_left_of_le (p ++ c) rest.flatten n hge2]
      rw [hdrop, htake]
      simp

/-- C2, confirmed: for every integer terminator `n ≥ 1` and any sequence of
non-empty fragments totalling at least `n` bytes, `_in` emits the first `n`
bytes exactly once via `found_terminator`; all bytes beyond `n` stay in
`inbuffer` unconsumed and unsplit; and because the code then stores the
falsy int `0` in `terminator`, no further frames (in particular no empty
frames) are emitted while that value is in effect. -/
theorem C2_fixed_length (n : Nat) (chunks : List (List Nat))
    (hn : 1 ≤ n) (hlen : n ≤ chunks.flatten.length) :
    deliverAll ⟨[], .tint n, []⟩ chunks =
      ⟨chunks.flatten.drop n, .tint 0, [chunks.flatten.take n]⟩ := by
  have := deliverAll_tint_aux n chunks [] (by simpa using hn) (by simpa using hlen)
  simpa using this

/-- C2, witness: `n = 3`, stream `[1, 2] , [3, 4] , [5]`: the frame is
`[1, 2, 3]`, bytes `[4, 5]` stay buffered, terminator becomes the int 0. -/
theorem C2_fixed_length_witness :
    deliverAll ⟨[], .tint 3, []⟩ [[1, 2], [3, 4], [5]] =
      ⟨[4, 5], .tint 0, [[1, 2, 3]]⟩ := by
  have h := C2_fixed_length 3 [[1, 2], [3, 4], [5]] (by decide) (by decide)
  simpa using h

/-- A raw OS socket as `Connection` sees it: its file descriptor and
whether the OS regards it as connected (a socket whose `connect()` failed
is not; `shutdown(SHUT_RDWR)` on such a socket raises `OSError ENOTCONN`
on Linux). -/
structure Sock where
  fd : Nat
  estab : Bool
deriving DecidableEq, Repr

/-- The lifecycle slice of `Connection` state used by `close()` and
`Client.connect()`: the `connected` flag, the `_socket` attribute
(`none` both before a socket is first assigned and after `del(self._socket)`
— in either case reading `self._socket` raises `AttributeError`), and
invocation counters for the `handle_close` / `handle_connect` callbacks. -/
structure CState where
  connected : Bool
  sock : Option Sock
  handleCloseCount : Nat
  handleConnectCount : Nat
deriving DecidableEq, Repr

/-- Embeds `Connection.close` (lines 250-257), object view.  Source order:
`self.connected = False`; log; `self._poller.unregister_connection(
self._socket.fileno())` — reading `self._socket` raises `AttributeError`
when the attribute is absent (the registry update itself is wrapped in a
bare try/except and never raises); `self.handle_close()`;
`self._socket.shutdown(SHUT_RDWR)` — raises `OSError ENOTCONN` when the
socket never connected; `self._socket.close()`; `del(self._socket)`.
Returns the resulting state and whether an exception escaped `close()`. -/
def connClose (st : CState) : CState × Bool :=
  match st.sock with
  | none => ({ st with connected := false }, true)
  | some s =>
    if s.estab then
      ({ st with connected := false, sock := none,
                 handleCloseCount := st.handleCloseCount + 1 }, false)
    else
      ({ st with connected := false,
                 handleCloseCount := st.handleCloseCount + 1 }, true)

/-- C4, counterexample: on a live connection (socket present and
established), the first `close()` succeeds and deletes `self._socket`; the
second `close()` then raises `AttributeError` at `self._socket.fileno()`
instead of completing without error, contradicting the claim. -/
theorem C4_counterexample :
    (connClose (connClose ⟨true, some ⟨5, true⟩, 0, 0⟩).1).2 = true ∧
      (connClose (connClose ⟨true, some ⟨5, true⟩, 0, 0⟩).1).1.handleCloseCount = 1 := by
  decide

/-- C4, amended: calling `close()` twice on a Connection holding an
established socket invokes `handle_close()` exactly once — the second call
raises `AttributeError` (reading the deleted `_socket` attribute) before
reaching `handle_close()` — so the second call does not complete cleanly. -/
theorem C4_close_twice (st : CState) (s : Sock) (hs : st.sock = some s)
    (he : s.estab = true) :
    (connClose st).2 = false ∧
      (connClose (connClose st).1).2 = true ∧
      (connClose (connClose st).1).1.handleCloseCount = st.handleCloseCount + 1 ∧
      (connClose (connClose st).1).1.connected = false := by
  simp [connClose, hs, he]

/-- C4, witness: a concrete live connection. -/
theorem C4_close_twice_witness :
    (connClose ⟨true, some ⟨7, true⟩, 0, 0⟩).2 = false ∧
      (connClose (connClose ⟨true, some ⟨7, true⟩, 0, 0⟩).1).2 = true ∧
      (connClose (connClose ⟨true, some ⟨7, true⟩, 0, 0⟩).1).1.handleCloseCount = 0 + 1 ∧
      (connClose (connClose ⟨true, some ⟨7, true⟩, 0, 0⟩).1).1.connected = false :=
  C4_close_twice ⟨true, some ⟨7, true⟩, 0, 0⟩ ⟨7, true⟩ rfl rfl

/-- Outcome of the OS-level calls made by `Client.connect` (lines 282-292):
`createFail` — `getaddrinfo`/`socket()` raised inside `_create_socket`, so
`self._socket` was never assigned; `connectFail` — the socket was created
and assigned but `self._socket.connect(sockaddr)` raised; `success` — all
three calls succeeded. -/
inductive NetOutcome where
  | createFail
  | connectFail
  | success
deriving DecidableEq, Repr

/-- Embeds `Client.connect` (lines 282-292): the try block runs `_create_socket`,
`connect`, `setblocking`; on exception it logs an error and calls
`self.close()` (whose own exception, if any, propagates out of
`connect()`); otherwise `_connected()` registers with the poller, sets
`connected = True` and fires `handle_connect`.  `fd` is the descriptor the
OS hands out when socket creation succeeds.  Returns
(state, exception escaped `connect()`, error logged). -/
def clientConnect (o : NetOutcome) (fd : Nat) (st : CState) : CState × Bool × Bool :=
  match o with
  | .createFail =>
    let r := connClose st
    (r.1, r.2, true)
  | .connectFail =>
    let r := connClose { st with sock := some ⟨fd, false⟩ }
    (r.1, r.2, true)
  | .success =>
    ({ st with sock := some ⟨fd, true⟩, connected := true,
               handleConnectCount := st.handleConnectCount + 1 }, false, false)

/-- The lifecycle slice of `Server` state used by `Server.close()` and
`Server.connect()`: the `connected` flag and the `_socket` attribute
(`none` both before a socket is first assigned and after
`del(self._socket)`).  `Server` has no `handle_close` callback. -/
structure SState where
  connected : Bool
  sock : Option Sock
deriving DecidableEq, Repr

/-- Embeds `Server.close` (lines 153-158).  Source order:
`self.connected = False`; `self._poller.unregister_connection(
self._socket.fileno())` — reading `self._socket` raises `AttributeError`
when the attribute is absent (the registry update itself never raises);
`self._socket.shutdown(SHUT_RDWR)` — raises `OSError ENOTCONN` when the
OS does not regard the socket as connected (a socket that was merely
created, or whose bind/listen raised, is not); `self._socket.close()`;
`del(self._socket)`.  Returns the resulting state and whether an exception
escaped `close()`. -/
def serverClose (st : SState) : SState × Bool :=
  match st.sock with
  | none => ({ st with connected := false }, true)
  | some s =>
    if s.estab then ({ connected := false, sock := none }, false)
    else ({ st with connected := false }, true)

/-- Outcome of the OS-level calls made by `Server.connect` (lines 137-151):
`createFail` — `getaddrinfo`/`socket()` raised inside `_create_socket`, so
`self._socket` was never assigned; `bindFail` — the socket was created and
assigned but `setsockopt`/`bind`/`listen`/`setblocking` raised; `success`
— all calls succeeded. -/
inductive BindOutcome where
  | createFail
  | bindFail
  | success
deriving DecidableEq, Repr

/-- Embeds `Server.connect` (lines 137-151): the try block runs
`_create_socket`, `setsockopt(SO_REUSEADDR)`, `bind`, `listen` (for TCP),
`setblocking`; on exception it logs an error and calls `self.close()`
(whose own exception, if any, propagates out of `connect()`); otherwise it
sets `connected = True` and registers itself as a server with the poller.
A socket whose bind/listen raised is not connected in the OS sense, so the
cleanup `Server.close`'s `shutdown` raises `ENOTCONN` on it; a listening
socket is likewise never "connected", recorded as `estab := false`.
Returns (state, exception escaped `connect()`, error logged). -/
def serverConnect (o : BindOutcome) (fd : Nat) (st : SState) : SState × Bool × Bool :=
  match o with
  | .createFail =>
    let r := serverClose st
    (r.1, r.2, true)
  | .bindFail =>
    let r := serverClose { st with sock := some ⟨fd, false⟩ }
    (r.1, r.2, true)
  | .success =>
    ({ st with sock := some ⟨fd, false⟩, connected := true }, false, false)

/-- C7, counterexample: a fresh `Client` (no `_socket` attribute yet) whose
socket creation fails.  `connect()` logs the error and calls `close()`,
which immediately raises `AttributeError` reading `self._socket`; the
exception propagates out of `connect()`, contradicting the claim that no
exception escapes — already for this Client. -/
theorem C7_counterexample :
    (clientConnect .createFail 3 ⟨false, none, 0, 0⟩).2.1 = true ∧
      (clientConnect .createFail 3 ⟨false, none, 0, 0⟩).2.2 = true := by
  decide

/-- C7, amended: for every Client and every Server with no current socket
attribute, on any OS-level failure inside `connect()` (socket creation,
bind/listen, or connect), the failure is logged and the object ends with
`connected = false`, but the cleanup `close()` raises — an `AttributeError`
when the socket was never created, or `OSError ENOTCONN` from `shutdown`
of the never-connected socket — and that exception propagates out of
`connect()` instead of being suppressed. -/
theorem C7_connect_failure_raises (o : NetOutcome) (ob : BindOutcome) (fd gd : Nat)
    (st : CState) (sv : SState) (ho : o ≠ .success) (hob : ob ≠ .success)
    (hs : st.sock = none) (hsv : sv.sock = none) :
    ((clientConnect o fd st).1.connected = false ∧
      (clientConnect o fd st).2.1 = true ∧
      (clientConnect o fd st).2.2 = true) ∧
      ((serverConnect ob gd sv).1.connected = false ∧
        (serverConnect ob gd sv).2.1 = true ∧
        (serverConnect ob gd sv).2.2 = true) := by
  constructor
  · cases o with
    | createFail => simp [clientConnect, connClose, hs]
    | connectFail => simp [clientConnect, connClose]
    | success => exact absurd rfl ho
  · cases ob with
    | createFail => simp [serverConnect, serverClose, hsv]
    | bindFail => simp [serverConnect, serverClose]
    | success => exact absurd rfl hob

/-- C7, witness: a fresh client whose TCP connect call fails, and a fresh
server whose bind fails. -/
theorem C7_connect_failure_witness :
    ((clientConnect .connectFail 3 ⟨false, none, 0, 0⟩).1.connected = false ∧
      (clientConnect .connectFail 3 ⟨false, none, 0, 0⟩).2.1 = true ∧
      (clientConnect .connectFail 3 ⟨false, none, 0, 0⟩).2.2 = true) ∧
      ((serverConnect .bindFail 4 ⟨false, none⟩).1.connected = false ∧
        (serverConnect .bindFail 4 ⟨false, none⟩).2.1 = true ∧
        (serverConnect .bindFail 4 ⟨false, none⟩).2.2 = true) :=
  C7_connect_failure_raises .connectFail .bindFail 3 4 ⟨false, none, 0, 0⟩ ⟨false, none⟩
    (by decide) (by decide) rfl rfl

/-- The `_connections` registry of `Connections` as `close()` (close_all,
lines 119-124) sees it: a `dict` mapping filenos to Connection objects,
in insertion order with unique keys. -/
structure Registry where
  entries : List (Nat × CState)
deriving DecidableEq, Repr

/-- Embeds `del self._connections[fileno]` inside `unregister_connection`. -/
def regRemove (k : Nat) (r : Registry) : Registry :=
  ⟨r.entries.filter (fun e => e.1 ≠ k)⟩

/-- Embeds `self._connections[fileno].close()` wrapped in try/except (lines
120-124), seen from the registry.  `Connection.close` first sets
`connected = False`, then reads `self._socket` (raising `AttributeError` if
absent, before any registry change), then `unregister_connection` deletes
the fileno from `_connections` (its internal bare try/except swallows the
`KeyError` from the `_servers` deletion; the fileno is epoll-registered, the
invariant `register_connection` establishes), then `handle_close`, then
`shutdown` (raising `ENOTCONN` if the socket never connected — after the
registry shrank), `close`, `del`.  Returns the registry and whether
`close()` raised (the caller swallows it either way). -/
def closeEntry (k : Nat) (r : Registry) : Registry × Bool :=
  match r.entries.lookup k with
  | none => (r, true)
  | some c =>
    match c.sock with
    | none =>
      (⟨r.entries.map (fun e => if e.1 = k then (k, { c with connected := false }) else e)⟩,
        true)
    | some s => (regRemove k r, !s.estab)

/-- The `for fileno in self._connections` loop of `close` (lines 119-124)
with CPython `dict` iterator semantics: every `__next__` call — including
the final one that would end the loop — first checks that the dict still
has the size it had when iteration began, and raises
`RuntimeError: dictionary changed size during iteration` otherwise.
`keys` is the key sequence captured at loop entry, `origSize` the initial
size.  Returns the registry and whether the loop itself raised. -/
def closeAllGo (origSize : Nat) : List Nat → Registry → Registry × Bool
  | keys, r =>
    if r.entries.length ≠ origSize then (r, true)
    else
      match keys with
      | [] => (r, false)
      | k :: rest => closeAllGo origSize rest (closeEntry k r).1

/-- Embeds `Connections.close` (lines 119-124): best-effort close of every
registered connection, each `close()` wrapped in try/except. -/
def closeAll (r : Registry) : Registry × Bool :=
  closeAllGo r.entries.length (r.entries.map Prod.fst) r

/-- C8, counterexample: one registered live connection.  Its `close()`
succeeds and deregisters it, shrinking `_connections` while the `for` loop
iterates it, so `close_all` raises
`RuntimeError: dictionary changed size during iteration` instead of
completing without raising. -/
theorem C8_counterexample :
    (closeAll ⟨[(1, ⟨true, some ⟨1, true⟩, 0, 0⟩)]⟩).2 = true := by
  decide

/-- C8, amended: individual `close()` failures are swallowed, but any
`close()` that deregisters its connection shrinks the dict being iterated,
so `close_all` closes only the first registered connection and then raises
`RuntimeError` from the dict iterator; the remaining connections are left
untouched and are never attempted. -/
theorem C8_close_all_runtime_error (k : Nat) (c : CState) (s : Sock)
    (rest : List (Nat × CState)) (hsock : c.sock = some s)
    (hk : k ∉ rest.map Prod.fst) :
    closeAll ⟨(k, c) :: rest⟩ = (⟨rest⟩, true) := by
  have hfilter : rest.filter (fun e => e.1 ≠ k) = rest := by
    apply List.filter_eq_self.mpr
    intro e he
    have hek : e.1 ≠ k := fun h => hk (h ▸ List.mem_map_of_mem Prod.fst he)
    simpa using hek
  have hstep : (closeEntry k ⟨(k, c) :: rest⟩).1 = ⟨rest⟩ := by
    simp only [closeEntry, List.lookup, beq_self_eq_true, regRemove, hsock]
    simp only [List.filter_cons, decide_not]
    rw [if_neg (by simp)]
    congr 1
    apply List.filter_eq_self.mpr
    intro e he
    have hek : e.1 ≠ k := fun h => hk (h ▸ List.mem_map_of_mem Prod.fst he)
    simpa using hek
  unfold closeAll
  simp only [List.length_cons, List.map_cons]
  unfold closeAllGo
  rw [if_neg (by simp)]
  simp only []
  rw [hstep]
  unfold closeAllGo
  rw [if_pos (by simp)]

/-- C8, witness: two registered live connections; only the first is closed
and removed, the second is untouched, and close_all raises. -/
theorem C8_close_all_witness :
    closeAll ⟨[(1, ⟨true, some ⟨1, true⟩, 0, 0⟩), (2, ⟨true, some ⟨2, true⟩, 5, 0⟩)]⟩ =
      (⟨[(2, ⟨true, some ⟨2, true⟩, 5, 0⟩)]⟩, true) :=
  C8_close_all_runtime_error 1 ⟨true, some ⟨1, true⟩, 0, 0⟩ ⟨1, true⟩
    [(2, ⟨true, some ⟨2, true⟩, 5, 0⟩)] rfl (by decide)

/-- Epoll interest sets used by `Connections`: `_ro = EPOLLIN | EPOLLHUP |
EPOLLERR` and `_rw = _ro | EPOLLOUT`. -/
inductive Interest where
  | ro
  | rw
deriving DecidableEq, Repr

/-- A registered owner object as the `Connections` registry sees it: an
identity plus the `outbuffer` attribute that `poll` inspects. -/
structure Owner where
  id : Nat
  outbuffer : List (List Nat)
deriving DecidableEq, Repr

/-- The `Connections` reactor state: the `_connections` dict (insertion
order, unique keys), the `_servers` key set, and the epoll object's set of
registered descriptors with their current interest. -/
structure Reactor where
  connections : List (Nat × Owner)
  servers : List Nat
  epoll : List (Nat × Interest)
deriving DecidableEq, Repr

/-- Embeds `select.epoll.register(fd, eventmask)`: registering a descriptor that
is already registered raises `OSError EEXIST` (`FileExistsError`) — `none`
models the raise. -/
def epollRegister (fd : Nat) (i : Interest) (e : List (Nat × Interest)) :
    Option (List (Nat × Interest)) :=
  if (e.lookup fd).isSome then none else some (e ++ [(fd, i)])

/-- Embeds `select.epoll.modify(fd, eventmask)`: modifying a descriptor that is
not registered raises `OSError ENOENT` — `none` models the raise. -/
def epollModify (fd : Nat) (i : Interest) (e : List (Nat × Interest)) :
    Option (List (Nat × Interest)) :=
  if (e.lookup fd).isSome then
    some (e.map (fun p => if p.1 = fd then (fd, i) else p))
  else none

/-- Python `dict` assignment `d[k] = v`: overwrite in place if the key is
present, else append in insertion order. -/
def dictInsert (k : Nat) (v : Owner) (l : List (Nat × Owner)) : List (Nat × Owner) :=
  if (l.lookup k).isSome then l.map (fun p => if p.1 = k then (k, v) else p)
  else l ++ [(k, v)]

/-- Embeds `Connections.register_connection` (lines 65-67): store the owner in the
`_connections` dict, then `self._epoll.register(fileno, self._ro)`.  The
dict assignment happens first, so on a duplicate registration the dict is
already overwritten when `epoll.register` raises `FileExistsError`.
Returns the reactor and whether the call raised. -/
def register_connection (fn : Nat) (obj : Owner) (r : Reactor) : Reactor × Bool :=
  let conns := dictInsert fn obj r.connections
  match epollRegister fn .ro r.epoll with
  | some e => ({ r with connections := conns, epoll := e }, false)
  | none => ({ r with connections := conns }, true)

/-- The interest-recomputation loop at the top of `Connections.poll`
(lines 89-95), run before the `epoll.poll` wait: for every fileno in
`_connections` that is not in `_servers`, modify its epoll interest to
`_rw` if the owner's `outbuffer` is truthy (non-empty) and to `_ro`
otherwise.  `epoll.modify` on an unregistered fileno raises, aborting
`poll` — modelled by `none`. -/
def updateInterestsGo (servers : List Nat) :
    List (Nat × Owner) → List (Nat × Interest) → Option (List (Nat × Interest))
  | [], e => some e
  | (fn, obj) :: rest, e =>
    if fn ∈ servers then updateInterestsGo servers rest e
    else
      match epollModify fn (if obj.outbuffer.isEmpty then .ro else .rw) e with
      | some e2 => updateInterestsGo servers rest e2
      | none => none

/-- The first phase of `Connections.poll`: recompute every non-listener
connection's epoll interest from its `outbuffer`, before the multiplexer
wait. -/
def updateInterests (r : Reactor) : Option Reactor :=
  (updateInterestsGo r.servers r.connections r.epoll).map
    (fun e => { r with epoll := e })

/-- Replacing every pair keyed `fd` by `(fd, i)` makes `fd` look up to `i`,
provided `fd` was present. -/
theorem lookup_map_replace_self {α : Type} (fd : Nat) (i : α) :
    ∀ (e : List (Nat × α)), (e.lookup fd).isSome →
      (e.map (fun p => if p.1 = fd then (fd, i) else p)).lookup fd = some i := by
  intro e
  induction e with
  | nil => intro h; simp [List.lookup] at h
  | cons p t ih =>
    obtain ⟨a, b⟩ := p
    intro h
    by_cases hfd : a = fd
    · subst hfd
      simp only [List.map_cons]
      simp [List.lookup]
    · have hba : (fd == a) = false := by
        simp only [beq_eq_false_iff_ne, ne_eq]
        exact fun hc => hfd hc.symm
      have h2 : (t.lookup fd).isSome := by
        simpa [List.lookup, hba] using h
      simp only [List.map_cons, if_neg hfd]
      simpa [List.lookup, hba] using ih h2

/-- Replacing every pair keyed `fd` leaves the lookup of any other key
unchanged. -/
theorem lookup_map_replace_other {α : Type} (fd g : Nat) (i : α) (hne : g ≠ fd) :
    ∀ (e : List (Nat × α)),
      (e.map (fun p => if p.1 = fd then (fd, i) else p)).lookup g = e.lookup g := by
  intro e
  induction e with
  | nil => simp
  | cons p t ih =>
    obtain ⟨a, b⟩ := p
    by_cases hfd : a = fd
    · subst hfd
      have hga : (g == a) = false := by simp [hne]
      simp only [List.map_cons, if_pos rfl]
      simp [List.lookup, hga, ih]
    · simp only [List.map_cons, if_neg hfd]
      by_cases hg : g = a
      · subst hg
        simp [List.lookup]
      · have hga : (g == a) = false := by simp [hg]
        simp [List.lookup, hga, ih]

/-- A successful `epoll.modify` sets the descriptor's stored interest. -/
theorem epollModify_lookup_self (fd : Nat) (i : Interest) (e e2 : List (Nat × Interest))
    (h : epollModify fd i e = some e2) : e2.lookup fd = some i := by
  unfold epollModify at h
  by_cases hp : (e.lookup fd).isSome
  · rw [if_pos hp] at h
    obtain rfl := Option.some.inj h
    exact lookup_map_replace_self fd i e hp
  · rw [if_neg hp] at h
    exact absurd h (by simp)

/-- Modifying the interest of one descriptor leaves every other descriptor's
interest unchanged. -/
theorem epollModify_lookup_other (fd g : Nat) (i : Interest) (e e2 : List (Nat × Interest))
    (hne : g ≠ fd) (h : epollModify fd i e = some e2) : e2.lookup g = e.lookup g := by
  unfold epollModify at h
  by_cases hp : (e.lookup fd).isSome
  · rw [if_pos hp] at h
    obtain rfl := Option.some.inj h
    exact lookup_map_replace_other fd g i hne e
  · rw [if_neg hp] at h
    exact absurd h (by simp)

/-- Interest updates for keys other than `fn` never change `fn`'s stored
interest. -/
theorem updateInterestsGo_other (servers : List Nat) (fn : Nat) :
    ∀ (conns : List (Nat × Owner)) (e e2 : List (Nat × Interest)),
      (∀ p ∈ conns, p.1 ≠ fn) → updateInterestsGo servers conns e = some e2 →
      e2.lookup fn = e.lookup fn := by
  intro conns
  induction conns with
  | nil =>
    intro e e2 _ h
    obtain rfl := Option.some.inj h
    rfl
  | cons p rest ih =>
    intro e e2 hne h
    obtain ⟨g, obj⟩ := p
    unfold updateInterestsGo at h
    by_cases hs : g ∈ servers
    · rw [if_pos hs] at h
      exact ih e e2 (fun q hq => hne q (List.mem_cons_of_mem _ hq)) h
    · rw [if_neg hs] at h
      cases hm : epollModify g (if obj.outbuffer.isEmpty then .ro else .rw) e with
      | none => rw [hm] at h; exact absurd h (by simp)
      | some e1 =>
        rw [hm] at h
        have hg : g ≠ fn := hne (g, obj) (List.mem_cons_self _ _)
        have h1 := ih e1 e2 (fun q hq => hne q (List.mem_cons_of_mem _ hq)) h
        rw [h1]
        exact epollModify_lookup_other g fn _ e e1 (fun hc => hg hc.symm) hm

/-- Appending a fresh pair keyed `k` to the tail makes `k` look up to its
value when `k` was absent before. -/
theorem lookup_append_fresh {α : Type} (k : Nat) (v : α) :
    ∀ (l : List (Nat × α)), l.lookup k = none → (l ++ [(k, v)]).lookup k = some v := by
  intro l
  induction l with
  | nil => intro _; simp [List.lookup]
  | cons p t ih =>
    obtain ⟨a, b⟩ := p
    intro h
    by_cases hk : k = a
    · subst hk
      simp [List.lookup] at h
    · have hka : (k == a) = false := by simp [hk]
      have h2 : t.lookup k = none := by simpa [List.lookup, hka] using h
      simpa [List.lookup, hka] using ih h2

/-- A key is always found after its pair is appended at the tail. -/
theorem lookup_append_isSome {α : Type} (k : Nat) (v : α) :
    ∀ (l : List (Nat × α)), ((l ++ [(k, v)]).lookup k).isSome = true := by
  intro l
  induction l with
  | nil => simp [List.lookup]
  | cons p t ih =>
    obtain ⟨a, b⟩ := p
    by_cases hk : k = a
    · subst hk
      simp [List.lookup]
    · have hka : (k == a) = false := by simp [hk]
      simp only [List.cons_append, List.lookup, hka]
      exact ih

/-- Python `dict` assignment always leaves the assigned value as the
binding of its key. -/
theorem lookup_dictInsert_self (k : Nat) (v : Owner) (l : List (Nat × Owner)) :
    (dictInsert k v l).lookup k = some v := by
  unfold dictInsert
  by_cases hp : (l.lookup k).isSome
  · rw [if_pos hp]
    exact lookup_map_replace_self k v l hp
  · rw [if_neg hp]
    exact lookup_append_fresh k v l (Option.not_isSome_iff_eq_none.mp hp)

/-- The entry for a non-listener connection after the interest loop: its
epoll interest is recomputed from its `outbuffer`. -/
theorem updateInterestsGo_mem (servers : List Nat) (fn : Nat) (obj : Owner)
    (hns : fn ∉ servers) :
    ∀ (conns : List (Nat × Owner)) (e e2 : List (Nat × Interest)),
      (conns.map Prod.fst).Nodup → (fn, obj) ∈ conns →
      updateInterestsGo servers conns e = some e2 →
      e2.lookup fn = some (if obj.outbuffer.isEmpty then Interest.ro else Interest.rw) := by
  intro conns
  induction conns with
  | nil =>
    intro e e2 _ hmem
    exact absurd hmem (List.not_mem_nil _)
  | cons p rest ih =>
    intro e e2 hnodup hmem h
    obtain ⟨g, o⟩ := p
    have hnodup' : (rest.map Prod.fst).Nodup :=
      (List.nodup_cons.mp (by simpa using hnodup)).2
    rcases List.mem_cons.mp hmem with heq | hmem2
    · injection heq with h1 h2
      subst h1
      subst h2
      unfold updateInterestsGo at h
      rw [if_neg hns] at h
      cases hm : epollModify fn (if obj.outbuffer.isEmpty then .ro else .rw) e with
      | none =>
        rw [hm] at h
        exact absurd h (by simp)
      | some e1 =>
        rw [hm] at h
        have hrest : ∀ q ∈ rest, q.1 ≠ fn := by
          intro q hq hqe
          have hmemf : fn ∈ rest.map Prod.fst := hqe ▸ List.mem_map_of_mem Prod.fst hq
          exact (List.nodup_cons.mp (by simpa using hnodup)).1 hmemf
        rw [updateInterestsGo_other servers fn rest e1 e2 hrest h]
        exact epollModify_lookup_self fn _ e e1 hm
    · unfold updateInterestsGo at h
      by_cases hs : g ∈ servers
      · rw [if_pos hs] at h
        exact ih e e2 hnodup' hmem2 h
      · rw [if_neg hs] at h
        cases hm : epollModify g (if o.outbuffer.isEmpty then .ro else .rw) e with
        | none =>
          rw [hm] at h
          exact absurd h (by simp)
        | some e1 =>
          rw [hm] at h
          exact ih e1 e2 hnodup' hmem2 h

/-- C6, confirmed: in the interest-recomputation phase that `poll` runs
before the `epoll.poll` wait, every registered non-listener connection with
an empty `outbuffer` is assigned read-only interest and every one with a
non-empty `outbuffer` is assigned read-plus-write interest. -/
theorem C6_backpressure (r r2 : Reactor) (fn : Nat) (obj : Owner)
    (hnodup : (r.connections.map Prod.fst).Nodup)
    (hmem : (fn, obj) ∈ r.connections) (hns : fn ∉ r.servers)
    (hupd : updateInterests r = some r2) :
    r2.epoll.lookup fn =
      some (if obj.outbuffer.isEmpty then Interest.ro else Interest.rw) := by
  unfold updateInterests at hupd
  rw [Option.map_eq_some'] at hupd
  obtain ⟨e2, hgo, rfl⟩ := hupd
  exact updateInterestsGo_mem r.servers fn obj hns r.connections r.epoll e2 hnodup hmem hgo

/-- C6, witness: fileno 1 (empty outbuffer) gets `_ro`, fileno 2 (pending
data) gets `_rw`; fileno 3 is a listener and is skipped. -/
theorem C6_backpressure_witness :
    (updateInterests ⟨[(1, ⟨1, []⟩), (2, ⟨2, [[5]]⟩)], [3], [(1, .rw), (2, .ro), (3, .ro)]⟩ =
      some ⟨[(1, ⟨1, []⟩), (2, ⟨2, [[5]]⟩)], [3], [(1, .ro), (2, .rw), (3, .ro)]⟩) ∧
      (⟨[(1, ⟨1, []⟩), (2, ⟨2, [[5]]⟩)], [3], [(1, .ro), (2, .rw), (3, .ro)]⟩ :
        Reactor).epoll.lookup 2 = some (if ([[5]] : List (List Nat)).isEmpty then
          Interest.ro else Interest.rw) :=
  ⟨by decide,
    C6_backpressure ⟨[(1, ⟨1, []⟩), (2, ⟨2, [[5]]⟩)], [3], [(1, .rw), (2, .ro), (3, .ro)]⟩
      ⟨[(1, ⟨1, []⟩), (2, ⟨2, [[5]]⟩)], [3], [(1, .ro), (2, .rw), (3, .ro)]⟩ 2 ⟨2, [[5]]⟩
      (by decide) (by decide) (by decide) (by decide)⟩

/-- C9, counterexample: registering the same fileno twice on a fresh
reactor.  The second `register_connection` call overwrites the dict entry
but then `epoll.register` raises `FileExistsError` (EEXIST), so the call
does not succeed without error as claimed. -/
theorem C9_counterexample :
    (register_connection 1 ⟨1, []⟩
      (register_connection 1 ⟨0, []⟩ ⟨[], [], []⟩).1).2 = true := by
  decide

/-- C9, amended: re-registering an already-registered handle records the
last owner in the `_connections` dict (the dict assignment runs first), but
the call then raises `FileExistsError` from `epoll.register` instead of
succeeding without error. -/
theorem C9_register_overwrite_raises (r : Reactor) (fn : Nat) (a b : Owner)
    (hfn : (r.epoll.lookup fn).isSome = false) :
    (register_connection fn b (register_connection fn a r).1).2 = true ∧
      (register_connection fn b
        (register_connection fn a r).1).1.connections.lookup fn = some b := by
  have h1 : register_connection fn a r =
      ({ r with connections := dictInsert fn a r.connections,
                epoll := r.epoll ++ [(fn, .ro)] }, false) := by
    unfold register_connection epollRegister
    rw [if_neg (by simp [hfn])]
  rw [h1]
  have h2 : ((r.epoll ++ [(fn, Interest.ro)]).lookup fn).isSome = true :=
    lookup_append_isSome fn .ro r.epoll
  unfold register_connection epollRegister
  rw [if_pos h2]
  exact ⟨rfl, lookup_dictInsert_self fn b (dictInsert fn a r.connections)⟩

/-- C9, witness: a reactor that already has another connection registered. -/
theorem C9_register_witness :
    (register_connection 1 ⟨7, []⟩
      (register_connection 1 ⟨6, []⟩ ⟨[(2, ⟨5, []⟩)], [], [(2, .ro)]⟩).1).2 = true ∧
      (register_connection 1 ⟨7, []⟩
        (register_connection 1 ⟨6, []⟩
          ⟨[(2, ⟨5, []⟩)], [], [(2, .ro)]⟩).1).1.connections.lookup 1 = some ⟨7, []⟩ :=
  C9_register_overwrite_raises ⟨[(2, ⟨5, []⟩)], [], [(2, .ro)]⟩ 1 ⟨6, []⟩ ⟨7, []⟩ (by decide)

/-- Whether a handler body completed normally or raised. -/
inductive HRes where
  | hok
  | herr
deriving DecidableEq, Repr

/-- The application-supplied handler bodies reachable from one `poll`
dispatch: `Server.handle_connection`, `Connection._in`, `Connection._out`
and `Connection.close`, each indexed by fileno and abstracted to whether it
raises. -/
structure Handlers where
  onConnection : Nat → HRes
  onIn : Nat → HRes
  onOut : Nat → HRes
  onClose : Nat → HRes

/-- One epoll event mask as `poll` tests it: `EPOLLIN`, `EPOLLOUT`, and
`EPOLLHUP | EPOLLERR`. -/
structure EventMask where
  rin : Bool
  rout : Bool
  rhuperr : Bool
deriving DecidableEq, Repr

/-- A record of one handler invocation made during dispatch. -/
inductive Call where
  | connectionCall (fn : Nat)
  | inCall (fn : Nat)
  | outCall (fn : Nat)
  | closeCall (fn : Nat)
deriving DecidableEq, Repr

/-- Dispatch of a single `(fileno, event)` pair in `Connections.poll`
(lines 96-117).  A fileno in `_servers` goes to
`server.handle_connection()` with no try/except around it, so a raise
there escapes `poll` (second component `false`).  Otherwise each relevant
handler is invoked inside its own try/except (`_in`/`_out` with logging,
`close` with a bare `except: pass`), so the dispatch always completes.
Returns the invocations made and whether the dispatch completed without an
uncaught exception. -/
def dispatchEvent (servers : List Nat) (h : Handlers) (fn : Nat) (ev : EventMask) :
    List Call × Bool :=
  if fn ∈ servers then
    ([Call.connectionCall fn], h.onConnection fn = HRes.hok)
  else
    ((if ev.rin then [Call.inCall fn] else []) ++
      (if ev.rout then [Call.outCall fn] else []) ++
      (if ev.rhuperr then [Call.closeCall fn] else []), true)

/-- The event-dispatch loop of one `poll` cycle: dispatch each `(fileno,
event)` pair in order; an uncaught exception propagates out of `poll`,
abandoning the remaining pairs. -/
def dispatchCycle (servers : List Nat) (h : Handlers) :
    List (Nat × EventMask) → List Call × Bool
  | [] => ([], true)
  | (fn, ev) :: rest =>
    let r := dispatchEvent servers h fn ev
    if r.2 then
      let r2 := dispatchCycle servers h rest
      (r.1 ++ r2.1, r2.2)
    else (r.1, false)

/-- C5, counterexample: fileno 1 is a listening socket whose
`handle_connection` raises; fileno 2 is an ordinary readable connection
queued after it in the same cycle.  The exception is not caught (the server
branch of `poll` has no try/except), the cycle aborts, and fileno 2 is
never dispatched — contradicting the claim for listener events. -/
theorem C5_counterexample :
    (dispatchCycle [1] ⟨fun _ => .herr, fun _ => .hok, fun _ => .hok, fun _ => .hok⟩
        [(1, ⟨true, false, false⟩), (2, ⟨true, false, false⟩)]).2 = false ∧
      Call.inCall 2 ∉
        (dispatchCycle [1] ⟨fun _ => .herr, fun _ => .hok, fun _ => .hok, fun _ => .hok⟩
          [(1, ⟨true, false, false⟩), (2, ⟨true, false, false⟩)]).1 := by
  decide

/-- C5, amended: exceptions raised in non-listener handlers (`_in`, `_out`,
`close`) are caught per-handler (logged for `_in`/`_out`, silently swallowed
for `close`) and never abort the cycle; but an exception in a listening
socket's `handle_connection` is not caught.  Provided no listener handler
in the cycle raises, every `(fileno, event)` pair is dispatched — whatever
the non-listener handlers do — and the cycle completes. -/
theorem C5_dispatch_isolation (servers : List Nat) (h : Handlers)
    (events : List (Nat × EventMask))
    (hsrv : ∀ p ∈ events, p.1 ∈ servers → h.onConnection p.1 = HRes.hok) :
    dispatchCycle servers h events =
      (events.flatMap (fun p => (dispatchEvent servers h p.1 p.2).1), true) := by
  induction events with
  | nil => rfl
  | cons p rest ih =>
    obtain ⟨fn, ev⟩ := p
    have hrest : ∀ q ∈ rest, q.1 ∈ servers → h.onConnection q.1 = HRes.hok :=
      fun q hq => hsrv q (List.mem_cons_of_mem _ hq)
    have hok : (dispatchEvent servers h fn ev).2 = true := by
      unfold dispatchEvent
      by_cases hs : fn ∈ servers
      · rw [if_pos hs]
        simp [hsrv (fn, ev) (List.mem_cons_self _ _) hs]
      · rw [if_neg hs]
    show (if (dispatchEvent servers h fn ev).2 then _ else _) = _
    rw [hok, if_pos rfl, ih hrest]
    simp

/-- C5, witness: one listener whose handler succeeds, one connection whose
read handler raises (caught), one hangup; all three events dispatched. -/
theorem C5_dispatch_isolation_witness :
    dispatchCycle [1] ⟨fun _ => .hok, fun _ => .herr, fun _ => .hok, fun _ => .hok⟩
        [(1, ⟨true, false, false⟩), (2, ⟨true, false, false⟩), (3, ⟨false, false, true⟩)] =
      ([Call.connectionCall 1, Call.inCall 2, Call.closeCall 3], true) := by
  have h := C5_dispatch_isolation [1]
    ⟨fun _ => .hok, fun _ => .herr, fun _ => .hok, fun _ => .hok⟩
    [(1, ⟨true, false, false⟩), (2, ⟨true, false, false⟩), (3, ⟨false, false, true⟩)]
    (by decide)
  rw [h]
  rfl

/-- Result of one `socket.send(frame)` call: `sent k` — the OS accepted the
first `k` bytes; `sockErr` — the call raised `socket.error`. -/
inductive SendRes where
  | sent (k : Nat)
  | sockErr
deriving DecidableEq, Repr

/-- The `while` loop of `Connection._out` (lines 236-248).  The `outbuffer`
deque is represented in pop order: the head of the list is the element
`outbuffer.pop()` removes (Python's right end, the oldest chunk, since
`send` enqueues with `appendleft`).  `oracle i` is the result of the
`i`-th `socket.send` call of this cycle.  Per the source: an empty frame is
discarded and the loop continues; `socket.error` is logged and `_out`
returns; on a partial send (`sent < len(frame)`) the source calls
`self.outbuffer.appendright(frame[sent:])` — `collections.deque` has no
method `appendright`, so this raises `AttributeError` (uncaught: the
try/except around `send` only catches `socket.error`), the remainder is
lost (the frame was already popped), and the exception escapes `_out`.
Returns (final buffer in pop order, payload accepted by each completed
`send` in order, whether an exception escaped `_out`). -/
def connOut (oracle : Nat → SendRes) (connected : Bool) :
    Nat → List (List Nat) → List (List Nat) × List (List Nat) × Bool
  | _, [] => ([], [], false)
  | i, frame :: rest =>
    if connected then
      if frame = [] then connOut oracle connected i rest
      else
        match oracle i with
        | .sockErr => (rest, [], false)
        | .sent k =>
          if k < frame.length then (rest, [frame.take k], true)
          else
            let r := connOut oracle connected (i + 1) rest
            (r.1, frame :: r.2.1, r.2.2)
    else (frame :: rest, [], false)

/-- C3, code bug: on any partial send the popped chunk's remainder is not
re-queued — `outbuffer.appendright(...)` raises `AttributeError` because
`collections.deque` has no such method — so `_out` aborts with an uncaught
exception and the unsent remainder `frame.drop k` is lost; the claimed
requeue-at-front never happens. -/
theorem C3_appendright_attribute_error (frame : List Nat) (rest : List (List Nat))
    (oracle : Nat → SendRes) (i k : Nat) (hf : frame ≠ [])
    (ho : oracle i = .sent k) (hk : k < frame.length) :
    connOut oracle true i (frame :: rest) = (rest, [frame.take k], true) := by
  unfold connOut
  rw [if_pos rfl, if_neg hf, ho]
  simp only []
  rw [if_pos hk]

/-- C3, witness: `outbuffer = deque([b"ab"])`, the socket accepts 1 of 2
bytes: `_out` raises, and the remainder `b"b"` is gone from the buffer. -/
theorem C3_appendright_witness :
    connOut (fun _ => .sent 1) true 0 [[97, 98]] = ([], [[97]], true) :=
  C3_appendright_attribute_error [97, 98] [] (fun _ => .sent 1) 0 1
    (by decide) rfl (by decide)

/-- The `Connection.__init__` attributes fixed at construction
(lines 176-187): `connected`, `inbuffer`, `outbuffer`, `_frame_size_in`,
`_frame_size_out`, `terminator`. -/
structure ConnInit where
  connected : Bool
  inbuffer : List Nat
  outbuffer : List (List Nat)
  frame_size_in : Nat
  frame_size_out : Nat
  terminator : Terminator
deriving DecidableEq, Repr

/-- The attribute values `Connection.__init__` assigns: not connected,
both buffers empty, frame sizes 4096, terminator `b"\r\n"` (bytes 13, 10). -/
def connectionInit : ConnInit :=
  ⟨false, [], [], 4096, 4096, .tbytes [13, 10]⟩

/-- C10, confirmed: every newly constructed Connection starts with
terminator `b"\r\n"` (the two-byte CR LF delimiter, i.e. delimiter framing
mode, not raw collection), input and output frame sizes 4096, and empty
`inbuffer` and `outbuffer`. -/
theorem C10_connection_defaults :
    connectionInit.terminator = .tbytes [13, 10] ∧
      (Terminator.tbytes [13, 10] ≠ .tbytes []) ∧
      [13, 10].length = 2 ∧
      connectionInit.frame_size_in = 4096 ∧
      connectionInit.frame_size_out = 4096 ∧
      connectionInit.inbuffer = [] ∧
      connectionInit.outbuffer = [] := by
  decide
